import Mathlib

/-!
# Verification of the SESAP interview-processing pipeline

A shallow embedding, in Lean 4, of the data-processing core of the
SESAP interview explorer (`scripts/process-data.js` and the semantic-search
path of `src/components/SearchPanel.jsx`), together with proofs of the
specified properties.

Modelling conventions:

* JavaScript numbers are modelled as rationals (`ℚ`).  `Math.sqrt` is an
  abstract parameter `sqrtQ : ℚ → ℚ`; theorems that need facts about it
  (such as nonnegativity on nonnegative inputs) take them as hypotheses.
* The transformer embedding model (`pipeline('feature-extraction', ...)`)
  is an abstract parameter `embed : String → List ℚ`; it is a Lean
  function, hence deterministic, which matches the spec's assumption.
* A JS value that may be `null`/`undefined` is modelled as an `Option`.
  A present-but-empty array is `some []`: in JS an empty array is truthy,
  which several conditionals in the source depend on.
* JS arrays are Lean lists; object maps with string keys are association
  lists in key-insertion order.
* Record sub-sequences reached through optional chaining
  (`data.analysis?.summaries` &c.) are modelled as plain lists: an absent
  sequence behaves exactly like an empty one in every loop of the source.
-/

namespace SESAP

/-! ## Data model (`scripts/schema.js` shapes, as used by `process-data.js`) -/

/-- One entry of `analysis.summaries`. -/
structure Summary where
  category : String
  summaryText : String
  embedding : Option (List ℚ)
deriving Repr, DecidableEq

/-- One entry of `analysis.themes`. -/
structure Theme where
  themeId : String
  title : String
  description : String
  category : String
  embedding : Option (List ℚ)
deriving Repr, DecidableEq

/-- One entry of `analysis.quotes`. -/
structure Quote where
  quoteId : String
  quoteText : String
  context : String
  sentiment : String
  tags : List String
  embedding : Option (List ℚ)
deriving Repr, DecidableEq

/-- One entry of `analysis.timelinePoints`. -/
structure TimelinePoint where
  eventDescription : String
  embedding : Option (List ℚ)
deriving Repr, DecidableEq

/-- One entry of `analysis.areasForImprovement`. -/
structure ImprovementArea where
  title : String
  description : String
  embedding : Option (List ℚ)
deriving Repr, DecidableEq

/-- The `analysis` object of an interview record. -/
structure Analysis where
  summaries : List Summary
  themes : List Theme
  quotes : List Quote
  timelinePoints : List TimelinePoint
  areasForImprovement : List ImprovementArea
deriving Repr, DecidableEq

/-- The `categoryEmbeddings` object written by `processInterview`
(`process-data.js` lines 100-116).  Its four fields are always arrays
(possibly empty), never absent. -/
structure CategoryEmbeddings where
  summary : List ℚ
  themes : List ℚ
  collegeExperience : List ℚ
  quotes : List ℚ
deriving Repr, DecidableEq

/-- A parsed interview record.  `categoryEmbeddings` is `none` before
enrichment (the raw JSON has no such field) and `some` afterwards.
`demographics` is kept as an opaque serialized blob: the pipeline only ever
`JSON.stringify`s it into a search-document field. -/
structure Interview where
  interviewId : String
  intervieweeName : String
  interviewDate : String
  demographics : String
  analysis : Analysis
  categoryEmbeddings : Option CategoryEmbeddings
  tagEmbeddings : List (String × List ℚ)
deriving Repr, DecidableEq

/-! ## Embedding Provider and Record Enricher (`process-data.js` lines 27-136) -/

/-- Whitespace removal at both ends of a character list. -/
def trimChars (l : List Char) : List Char :=
  ((l.dropWhile Char.isWhitespace).reverse.dropWhile Char.isWhitespace).reverse

/-- JS `String.prototype.trim`: strip leading and trailing whitespace. -/
def strTrim (s : String) : String := ⟨trimChars s.data⟩

/-- `generateEmbedding` (lines 28-34): blank text yields an empty vector,
otherwise the model is applied.  (`!text` is subsumed by the trim test:
the empty string trims to the empty string.) -/
def generateEmbedding (embed : String → List ℚ) (text : String) : List ℚ :=
  if strTrim text = "" then [] else embed text

/-- The re-embedding test used for every sub-entity:
`!x.embedding || x.embedding.length === 0`. -/
def needsEmbedding : Option (List ℚ) → Bool
  | none => true
  | some e => e.isEmpty

/-- Summary enrichment (lines 53-59): embed `summaryText` when the
embedding is absent or empty. -/
def enrichSummary (embed : String → List ℚ) (s : Summary) : Summary :=
  if needsEmbedding s.embedding then
    { s with embedding := some (generateEmbedding embed s.summaryText) }
  else s

/-- Theme enrichment (lines 61-69): embeds `` `${title} ${description}` ``. -/
def enrichTheme (embed : String → List ℚ) (t : Theme) : Theme :=
  if needsEmbedding t.embedding then
    { t with embedding := some (generateEmbedding embed (t.title ++ " " ++ t.description)) }
  else t

/-- Quote enrichment (lines 71-78): embeds `quoteText`. -/
def enrichQuote (embed : String → List ℚ) (q : Quote) : Quote :=
  if needsEmbedding q.embedding then
    { q with embedding := some (generateEmbedding embed q.quoteText) }
  else q

/-- Timeline-point enrichment (lines 80-87): embeds `eventDescription`. -/
def enrichTimelinePoint (embed : String → List ℚ) (p : TimelinePoint) : TimelinePoint :=
  if needsEmbedding p.embedding then
    { p with embedding := some (generateEmbedding embed p.eventDescription) }
  else p

/-- Improvement-area enrichment (lines 89-97): embeds `` `${title} ${description}` ``. -/
def enrichArea (embed : String → List ℚ) (a : ImprovementArea) : ImprovementArea :=
  if needsEmbedding a.embedding then
    { a with embedding := some (generateEmbedding embed (a.title ++ " " ++ a.description)) }
  else a

/-- The five per-sub-entity enrichment passes of `processInterview`. -/
def enrichAnalysis (embed : String → List ℚ) (a : Analysis) : Analysis :=
  { summaries := a.summaries.map (enrichSummary embed)
    themes := a.themes.map (enrichTheme embed)
    quotes := a.quotes.map (enrichQuote embed)
    timelinePoints := a.timelinePoints.map (enrichTimelinePoint embed)
    areasForImprovement := a.areasForImprovement.map (enrichArea embed) }

/-- `s.category?.toLowerCase().includes('college') ||
s.category?.toLowerCase().includes('academic')` (lines 109-110).
`String.splitOn` is used as the substring test: the pattern occurs in `s`
iff splitting on it produces more than one piece. -/
def collegeSummary (s : Summary) : Bool :=
  (s.category.toLower.splitOn "college").length > 1 ||
    (s.category.toLower.splitOn "academic").length > 1

/-- The `categoryEmbeddings` computation (lines 100-116), applied to the
already-enriched analysis (the source mutates `data` in place first).
`join(' ')` on an empty array yields `''`, which `|| ''` leaves unchanged,
so `String.intercalate` models both at once. -/
def computeCategoryEmbeddings (embed : String → List ℚ) (a : Analysis) : CategoryEmbeddings :=
  { summary := generateEmbedding embed
      (String.intercalate " " (a.summaries.map Summary.summaryText))
    themes := generateEmbedding embed
      (String.intercalate " " (a.themes.map fun t => t.title ++ " " ++ t.description))
    collegeExperience := generateEmbedding embed
      (String.intercalate " " ((a.summaries.filter collegeSummary).map Summary.summaryText))
    quotes := generateEmbedding embed
      (String.intercalate " " (a.quotes.map Quote.quoteText)) }

/-- `[...new Set(xs)]`: deduplication keeping first-insertion order. -/
def setDedup (l : List String) : List String :=
  l.foldl (fun acc t => if t ∈ acc then acc else acc ++ [t]) []

/-- `[...new Set(data.analysis?.quotes?.flatMap(q => q.tags || []) || [])]`
(line 119). -/
def quoteTagsOf (a : Analysis) : List String :=
  setDedup (a.quotes.flatMap Quote.tags)

/-- The `tagEmbeddings` computation (lines 118-129): one aggregate
embedding per distinct quote tag whose joined quote text is nonempty
(`if (tagQuotes)` — the empty string is falsy). -/
def computeTagEmbeddings (embed : String → List ℚ) (a : Analysis) : List (String × List ℚ) :=
  (quoteTagsOf a).filterMap fun tag =>
    let tagQuotes :=
      String.intercalate " " (((a.quotes.filter fun q => tag ∈ q.tags).map Quote.quoteText))
    if tagQuotes = "" then none else some (tag, generateEmbedding embed tagQuotes)

/-- The enrichment phase of `processInterview` (lines 51-131) on a
schema-valid record: fill in missing sub-entity embeddings, then attach
`categoryEmbeddings` and `tagEmbeddings` computed from the (enriched)
analysis. -/
def enrichInterview (embed : String → List ℚ) (r : Interview) : Interview :=
  let a := enrichAnalysis embed r.analysis
  { r with
    analysis := a
    categoryEmbeddings := some (computeCategoryEmbeddings embed a)
    tagEmbeddings := computeTagEmbeddings embed a }

/-! ### Idempotence of enrichment (claim C8) -/

theorem enrichSummary_idem (embed : String → List ℚ) (s : Summary) :
    enrichSummary embed (enrichSummary embed s) = enrichSummary embed s := by
  unfold enrichSummary
  by_cases h : needsEmbedding s.embedding
  · simp only [h, if_pos]
    split <;> rfl
  · simp only [h]
    split <;> simp_all

theorem enrichTheme_idem (embed : String → List ℚ) (t : Theme) :
    enrichTheme embed (enrichTheme embed t) = enrichTheme embed t := by
  unfold enrichTheme
  by_cases h : needsEmbedding t.embedding
  · simp only [h, if_pos]
    split <;> rfl
  · simp only [h]
    split <;> simp_all

theorem enrichQuote_idem (embed : String → List ℚ) (q : Quote) :
    enrichQuote embed (enrichQuote embed q) = enrichQuote embed q := by
  unfold enrichQuote
  by_cases h : needsEmbedding q.embedding
  · simp only [h, if_pos]
    split <;> rfl
  · simp only [h]
    split <;> simp_all

theorem enrichTimelinePoint_idem (embed : String → List ℚ) (p : TimelinePoint) :
    enrichTimelinePoint embed (enrichTimelinePoint embed p) = enrichTimelinePoint embed p := by
  unfold enrichTimelinePoint
  by_cases h : needsEmbedding p.embedding
  · simp only [h, if_pos]
    split <;> rfl
  · simp only [h]
    split <;> simp_all

theorem enrichArea_idem (embed : String → List ℚ) (a : ImprovementArea) :
    enrichArea embed (enrichArea embed a) = enrichArea embed a := by
  unfold enrichArea
  by_cases h : needsEmbedding a.embedding
  · simp only [h, if_pos]
    split <;> rfl
  · simp only [h]
    split <;> simp_all

/-- Mapping an idempotent function twice is mapping it once. -/
theorem map_idem {α : Type} {f : α → α} (hf : ∀ x, f (f x) = f x) (l : List α) :
    (l.map f).map f = l.map f := by
  induction l with
  | nil => rfl
  | cons x xs ih => simp [hf, ih]

theorem enrichAnalysis_idem (embed : String → List ℚ) (a : Analysis) :
    enrichAnalysis embed (enrichAnalysis embed a) = enrichAnalysis embed a := by
  unfold enrichAnalysis
  simp only [Analysis.mk.injEq]
  exact ⟨map_idem (enrichSummary_idem embed) _, map_idem (enrichTheme_idem embed) _,
    map_idem (enrichQuote_idem embed) _, map_idem (enrichTimelinePoint_idem embed) _,
    map_idem (enrichArea_idem embed) _⟩

/-- **C8** — Running the Record Enricher a second time on an
already-enriched record is the identity: every sub-entity embedding, the
`categoryEmbeddings` and the `tagEmbeddings` of the re-enriched record are
identical to those of the enriched record (the embedding function is a
Lean function, hence deterministic). -/
theorem enrichInterview_idempotent (embed : String → List ℚ) (r : Interview) :
    enrichInterview embed (enrichInterview embed r) = enrichInterview embed r := by
  unfold enrichInterview
  simp [enrichAnalysis_idem]

/-! ## Search Index Builder (`process-data.js` lines 212-308)

The Lunr inverted index built at lines 289-301 is an opaque third-party
serialization and is not modelled; `buildSearchIndex` here returns the
`documents` and `embeddings` arrays, which are what the verified
properties are about. -/

/-- One entry of the `documents` array.  Fields not consulted by any
verified property (`demographics`, `date`, `category`, `context`,
`sentiment`, `tags`) are carried in `extra` as an opaque string so that
the constructor sites still mirror the source. -/
structure SearchDoc where
  id : String
  type : String
  interviewId : String
  title : String
  content : String
  extra : String
deriving Repr, DecidableEq

/-- One entry of the `embeddings` array; the `metadata` object is reduced
to the document type (no verified property reads the rest). -/
structure EmbEntry where
  id : String
  embedding : List ℚ
  metaType : String
deriving Repr, DecidableEq

def interviewDocId (iv : Interview) : String := "interview_" ++ iv.interviewId

def themeDocId (iv : Interview) (t : Theme) : String :=
  "theme_" ++ iv.interviewId ++ "_" ++ t.themeId

def quoteDocId (iv : Interview) (q : Quote) : String :=
  "quote_" ++ iv.interviewId ++ "_" ++ q.quoteId

/-- Documents contributed by one interview: the main `interview` document
(title `intervieweeName || interviewId`), one `theme` document per theme,
one `quote` document per quote, in source push order. -/
def docsOfInterview (iv : Interview) : List SearchDoc :=
  { id := interviewDocId iv, type := "interview", interviewId := iv.interviewId
    title := if iv.intervieweeName = "" then iv.interviewId else iv.intervieweeName
    content := String.intercalate " " (iv.analysis.summaries.map Summary.summaryText)
    extra := iv.demographics } ::
  (iv.analysis.themes.map fun t =>
    { id := themeDocId iv t, type := "theme", interviewId := iv.interviewId
      title := t.title, content := t.description, extra := t.category }) ++
  (iv.analysis.quotes.map fun q =>
    { id := quoteDocId iv q, type := "quote", interviewId := iv.interviewId
      title := "", content := q.quoteText
      extra := String.intercalate " " q.tags })

/-- Embeddings contributed by one interview, in source push order.

* interview entry: guarded by `if (interview.categoryEmbeddings?.summary)`
  — the optional chain is `undefined` (falsy) only when
  `categoryEmbeddings` is absent; a present `summary` field is an array
  and an array is truthy **even when empty**;
* theme entries: `if (theme.embedding)` — present arrays pass, absent
  fields do not, emptiness is not tested;
* quote entries: `if (quote.embedding)` — likewise. -/
def embsOfInterview (iv : Interview) : List EmbEntry :=
  (match iv.categoryEmbeddings with
    | some c => [{ id := interviewDocId iv, embedding := c.summary, metaType := "interview" }]
    | none => []) ++
  (iv.analysis.themes.filterMap fun t =>
    t.embedding.map fun e => { id := themeDocId iv t, embedding := e, metaType := "theme" }) ++
  (iv.analysis.quotes.filterMap fun q =>
    q.embedding.map fun e => { id := quoteDocId iv q, embedding := e, metaType := "quote" })

/-- `buildSearchIndex` (lines 213-308) restricted to its `documents` and
`embeddings` outputs. -/
def buildSearchIndex (interviews : List Interview) : List SearchDoc × List EmbEntry :=
  (interviews.flatMap docsOfInterview, interviews.flatMap embsOfInterview)

/-! ### Which documents get an embeddings entry (claims C3) -/

/-- Every document id always reaches the `documents` list, embedding or
not: documents are pushed unconditionally. -/
theorem buildSearchIndex_documents_ids (interviews : List Interview) :
    (buildSearchIndex interviews).1.map SearchDoc.id =
      interviews.flatMap fun iv =>
        interviewDocId iv ::
          (iv.analysis.themes.map (themeDocId iv) ++ iv.analysis.quotes.map (quoteDocId iv)) := by
  unfold buildSearchIndex docsOfInterview
  induction interviews with
  | nil => rfl
  | cons iv rest ih =>
    simp_all
    congr 1

/-- **C3 (amended)** — An embeddings-list entry is emitted for a document
iff that document's source embedding is *present* (interview documents:
the record has a `categoryEmbeddings` object, whose `summary` aggregate is
used even when it is the empty vector; theme and quote documents: the
`embedding` field is present, even when empty).  A document whose source
embedding is absent appears in the document list (previous theorem) but
not in the embeddings list. -/
theorem buildSearchIndex_embeddings_ids (interviews : List Interview) :
    (buildSearchIndex interviews).2.map EmbEntry.id =
      interviews.flatMap fun iv =>
        (if iv.categoryEmbeddings.isSome then [interviewDocId iv] else []) ++
          ((iv.analysis.themes.filter fun t => t.embedding.isSome).map (themeDocId iv) ++
            (iv.analysis.quotes.filter fun q => q.embedding.isSome).map (quoteDocId iv)) := by
  unfold buildSearchIndex embsOfInterview
  induction interviews with
  | nil => rfl
  | cons iv rest ih =>
    have hth : (iv.analysis.themes.filterMap fun t =>
        t.embedding.map fun e =>
          ({ id := themeDocId iv t, embedding := e, metaType := "theme" } : EmbEntry)).map
            EmbEntry.id =
        (iv.analysis.themes.filter fun t => t.embedding.isSome).map (themeDocId iv) := by
      induction iv.analysis.themes with
      | nil => rfl
      | cons t ts iht => cases h : t.embedding <;> simp_all [List.filter_cons, h]
    have hq : (iv.analysis.quotes.filterMap fun q =>
        q.embedding.map fun e =>
          ({ id := quoteDocId iv q, embedding := e, metaType := "quote" } : EmbEntry)).map
            EmbEntry.id =
        (iv.analysis.quotes.filter fun q => q.embedding.isSome).map (quoteDocId iv) := by
      induction iv.analysis.quotes with
      | nil => rfl
      | cons q qs ihq => cases h : q.embedding <;> simp_all [List.filter_cons, h]
    cases h : iv.categoryEmbeddings <;> simp_all

/-- A minimal raw record with no summaries, no themes and no quotes: its
`summary` category aggregate embeds the empty string, which
`generateEmbedding` maps to the empty vector. -/
def emptyRawInterview : Interview :=
  { interviewId := "i1", intervieweeName := "A", interviewDate := "2024-01-01"
    demographics := "{}"
    analysis := { summaries := [], themes := [], quotes := []
                  timelinePoints := [], areasForImprovement := [] }
    categoryEmbeddings := none, tagEmbeddings := [] }

/-- **C3 (counterexample)** — The claim "an embeddings-list entry is
emitted iff the source embedding is non-empty" is false: enriching a
record with no summaries gives `categoryEmbeddings.summary = []`
(the `summary` aggregate of the empty text), yet `buildSearchIndex` still
pushes an embeddings entry for its interview document, with an empty
embedding.  Computed here for a concrete embedding function. -/
theorem buildSearchIndex_emits_empty_embedding :
    (buildSearchIndex [enrichInterview (fun _ => [1]) emptyRawInterview]).2 =
      [{ id := "interview_i1", embedding := [], metaType := "interview" }] := by
  decide

/-! ## Semantic search (`src/components/SearchPanel.jsx`) -/

/-- `cosineSimilarity` (SearchPanel.jsx lines 65-80).  The two guards of
the source are modelled exactly: `null`/`undefined` arguments (`!a || !b`)
and mismatched lengths return `0` before any arithmetic; a zero norm on
either side returns `0` before the division.  `Math.sqrt` is the abstract
`sqrtQ`. -/
def cosineSimilarity (sqrtQ : ℚ → ℚ) : Option (List ℚ) → Option (List ℚ) → ℚ
  | none, _ => 0
  | some _, none => 0
  | some a, some b =>
    if a.length ≠ b.length then 0
    else
      let dotProduct := ((a.zip b).map fun p => p.1 * p.2).sum
      let normA := (a.map fun x => x * x).sum
      let normB := (b.map fun x => x * x).sum
      if normA = 0 ∨ normB = 0 then 0
      else dotProduct / (sqrtQ normA * sqrtQ normB)

/-- An element of the `similarities` array of `performSemanticSearch`:
an embeddings-list item spread together with its computed similarity. -/
structure ScoredEntry where
  id : String
  embedding : Option (List ℚ)
  similarity : ℚ
deriving Repr, DecidableEq

/-- Insertion into a descending-sorted list, modelling the effect of
`sort((a, b) => b.similarity - a.similarity)`. -/
def insertDesc (x : ScoredEntry) : List ScoredEntry → List ScoredEntry
  | [] => [x]
  | y :: ys => if y.similarity ≤ x.similarity then x :: y :: ys else y :: insertDesc x ys

/-- Descending sort by similarity (insertion sort).  JS `Array.sort` with
the comparator `(a, b) => b.similarity - a.similarity` produces *some*
ordering of the array that is non-increasing in similarity; this is one
such ordering, which is all any verified property depends on. -/
def sortBySimDesc : List ScoredEntry → List ScoredEntry
  | [] => []
  | x :: xs => insertDesc x (sortBySimDesc xs)

/-- `performSemanticSearch` (SearchPanel.jsx lines 108-147), as a function
of the (non-null) query embedding and the loaded embeddings list: map each
item to a scored entry, sort descending by similarity, `slice(0, 50)`,
then keep `similarity > 0.3`.  (The source slices *before* filtering.)
The final re-join of each id to its document is a lookup that preserves
the scored list one-to-one and is not modelled. -/
def performSemanticSearch (sqrtQ : ℚ → ℚ) (query : List ℚ)
    (embeddings : List (String × Option (List ℚ))) : List ScoredEntry :=
  let similarities := embeddings.map fun item =>
    { id := item.1, embedding := item.2
      similarity := cosineSimilarity sqrtQ (some query) item.2 : ScoredEntry }
  ((sortBySimDesc similarities).take 50).filter fun item => (3 : ℚ)/10 < item.similarity

/-! ### Ordering facts about the search result (claim C4) -/

theorem mem_insertDesc {x a : ScoredEntry} {l : List ScoredEntry} :
    a ∈ insertDesc x l ↔ a = x ∨ a ∈ l := by
  induction l with
  | nil => simp [insertDesc]
  | cons y ys ih =>
    simp only [insertDesc]
    split
    · simp [List.mem_cons, or_comm, or_left_comm]
    · simp only [List.mem_cons, ih]
      tauto

theorem insertDesc_pairwise {x : ScoredEntry} {l : List ScoredEntry}
    (h : l.Pairwise fun a b => b.similarity ≤ a.similarity) :
    (insertDesc x l).Pairwise fun a b => b.similarity ≤ a.similarity := by
  induction l with
  | nil => simp [insertDesc]
  | cons y ys ih =>
    rcases List.pairwise_cons.1 h with ⟨hy, hys⟩
    by_cases hle : y.similarity ≤ x.similarity
    · simp only [insertDesc, if_pos hle]
      refine List.pairwise_cons.2 ⟨?_, h⟩
      intro b hb
      rcases List.mem_cons.1 hb with rfl | hb'
      · exact hle
      · exact le_trans (hy b hb') hle
    · simp only [insertDesc, if_neg hle]
      refine List.pairwise_cons.2 ⟨?_, ih hys⟩
      intro b hb
      rcases mem_insertDesc.1 hb with rfl | hb'
      · exact le_of_not_le hle
      · exact hy b hb'

theorem sortBySimDesc_pairwise (l : List ScoredEntry) :
    (sortBySimDesc l).Pairwise fun a b => b.similarity ≤ a.similarity := by
  induction l with
  | nil => simp [sortBySimDesc]
  | cons x xs ih => exact insertDesc_pairwise ih

theorem mem_sortBySimDesc {a : ScoredEntry} {l : List ScoredEntry} :
    a ∈ sortBySimDesc l ↔ a ∈ l := by
  induction l with
  | nil => simp [sortBySimDesc]
  | cons x xs ih => simp [sortBySimDesc, mem_insertDesc, ih]

/-- **C4 (amended)** — For every query embedding and candidate list, the
semantic-search result contains no entry with similarity ≤ 0.3, is sorted
in *non-increasing* (weakly descending) order of similarity, and has at
most 50 entries.  (Strict descent fails when two candidates tie, see the
counterexample.) -/
theorem performSemanticSearch_threshold_sorted_capped (sqrtQ : ℚ → ℚ) (query : List ℚ)
    (embeddings : List (String × Option (List ℚ))) :
    (∀ e ∈ performSemanticSearch sqrtQ query embeddings, (3 : ℚ)/10 < e.similarity) ∧
      (performSemanticSearch sqrtQ query embeddings).Pairwise
        (fun a b => b.similarity ≤ a.similarity) ∧
      (performSemanticSearch sqrtQ query embeddings).length ≤ 50 := by
  unfold performSemanticSearch
  refine ⟨?_, ?_, ?_⟩
  · intro e he
    have := List.of_mem_filter he
    simpa using this
  · exact ((sortBySimDesc_pairwise _).sublist (List.take_sublist _ _)).sublist
      (List.filter_sublist _)
  · calc (((sortBySimDesc _).take 50).filter fun item => (3 : ℚ)/10 < item.similarity).length
        ≤ ((sortBySimDesc _).take 50).length := List.length_filter_le _ _
      _ ≤ 50 := List.length_take_le _ _

/-- **C4 (counterexample)** — The claim's "sorted strictly descending"
fails on ties: two identical candidate embeddings receive the same
similarity (here both 1), so the result's similarity sequence `[1, 1]` is
not strictly descending.  `sqrtQ` is instantiated with a function that is
correct at the only point used (`sqrt 1 = 1`). -/
theorem performSemanticSearch_not_strictly_descending :
    ¬ ((performSemanticSearch (fun x => x) [1]
          [("a", some [1]), ("b", some [1])]).Pairwise
        fun a b => b.similarity < a.similarity) := by
  have hcos : cosineSimilarity (fun x => x) (some [1]) (some [1]) = 1 := by
    simp [cosineSimilarity]
  have hres : performSemanticSearch (fun x => x) [1] [("a", some [1]), ("b", some [1])] =
      [{ id := "a", embedding := some [1], similarity := 1 },
       { id := "b", embedding := some [1], similarity := 1 }] := by
    simp only [performSemanticSearch, List.map, hcos]
    norm_num [sortBySimDesc, insertDesc, List.filter]
  rw [hres]
  simp [List.pairwise_cons]

/-! ### Totality and zero guards of `cosineSimilarity` (claim C10) -/

/-- **C10** — `cosineSimilarity` is a total function that returns exactly
0 whenever either argument is absent, the vectors differ in length, or
either vector has zero norm — it therefore never reaches the division
with a zero denominator coming from an empty or absent vector — and
consequently an embeddings-list entry whose embedding is absent or empty
can never pass the 0.3 threshold and never appears in the semantic search
results. -/
theorem cosineSimilarity_zero_guards (sqrtQ : ℚ → ℚ) :
    (∀ b, cosineSimilarity sqrtQ none b = 0) ∧
      (∀ a, cosineSimilarity sqrtQ a none = 0) ∧
      (∀ a b : List ℚ, a.length ≠ b.length → cosineSimilarity sqrtQ (some a) (some b) = 0) ∧
      (∀ a b : List ℚ, (a.map fun x => x * x).sum = 0 ∨ (b.map fun x => x * x).sum = 0 →
        cosineSimilarity sqrtQ (some a) (some b) = 0) ∧
      (∀ query embeddings, ∀ e ∈ performSemanticSearch sqrtQ query embeddings,
        e.embedding ≠ none ∧ e.embedding ≠ some []) := by
  refine ⟨fun b => rfl, fun a => by cases a <;> rfl, ?_, ?_, ?_⟩
  · intro a b h
    simp [cosineSimilarity, h]
  · intro a b h
    rcases eq_or_ne a.length b.length with hlen | hlen
    · simp [cosineSimilarity, hlen, h]
    · simp [cosineSimilarity, hlen]
  · intro query embeddings e he
    have hsim : (3 : ℚ)/10 < e.similarity := by
      have := List.of_mem_filter he
      simpa using this
    have hmem : e ∈ sortBySimDesc ((embeddings.map fun item =>
        { id := item.1, embedding := item.2
          similarity := cosineSimilarity sqrtQ (some query) item.2 : ScoredEntry })) :=
      (List.take_sublist _ _).mem (List.mem_of_mem_filter he)
    have hmem' := mem_sortBySimDesc.1 hmem
    rcases List.mem_map.1 hmem' with ⟨item, _, rfl⟩
    have hsim' : (3 : ℚ)/10 < cosineSimilarity sqrtQ (some query) item.2 := hsim
    constructor
    · show item.2 ≠ none
      intro hnone
      rw [hnone] at hsim'
      have : cosineSimilarity sqrtQ (some query) none = 0 := rfl
      rw [this] at hsim'
      linarith
    · show item.2 ≠ some []
      intro hemp
      rw [hemp] at hsim'
      have hzero : cosineSimilarity sqrtQ (some query) (some []) = 0 := by
        cases query with
        | nil => simp [cosineSimilarity]
        | cons x xs => simp [cosineSimilarity]
      rw [hzero] at hsim'
      linarith

/-- Witness for C10: the guards evaluated at concrete inputs through the
theorem itself. -/
theorem cosineSimilarity_zero_guards_witness :
    cosineSimilarity (fun x => x) (some [1]) (some [1, 2]) = 0 ∧
      cosineSimilarity (fun x => x) (some [0, 0]) (some [1, 2]) = 0 := by
  refine ⟨(cosineSimilarity_zero_guards (fun x => x)).2.2.1 [1] [1, 2] (by decide), ?_⟩
  exact (cosineSimilarity_zero_guards (fun x => x)).2.2.2.1 [0, 0] [1, 2] (by norm_num)

/-! ## Clustering Engine (`process-data.js` lines 310-445)

`Math.random()` is modelled as a stream `rs : Nat → ℚ` of draws in
`[0, 1)`; draw `t` is the `t`-th call made by one `performClustering`
invocation (the first draw picks the first seed, draw `t ≥ 1` picks the
`t`-th subsequent seed).

`euclideanDistance` (lines 421-428) returns `Infinity` when the two
vectors differ in length.  Infinities have no home in `ℚ`, so the faithful
`euclideanDistance` below returns an `Option ℚ` with `none` for
`Infinity`, and the clustering code is modelled over the plain-`ℚ`
`edist`, which agrees with the source whenever all embeddings share one
dimension — the regime every theorem below assumes (the spec fixes the
dimension at 384; `euclideanDistance_eq_edist` records the agreement). -/

/-- The loop `for i: sum += (a[i] - b[i])**2` over equal-length vectors. -/
def sumSqDiff (a b : List ℚ) : ℚ :=
  ((a.zip b).map fun p => (p.1 - p.2) ^ 2).sum

/-- `euclideanDistance` (lines 421-428): `Infinity` (here `none`) on
`null` arguments or mismatched lengths, else the square root of the sum of
squared coordinate differences. -/
def euclideanDistance (sqrtQ : ℚ → ℚ) (a b : List ℚ) : Option ℚ :=
  if a.length = b.length then some (sqrtQ (sumSqDiff a b)) else none

/-- The distance actually threaded through the clustering model: the
equal-dimension branch of `euclideanDistance`. -/
def edist (sqrtQ : ℚ → ℚ) (a b : List ℚ) : ℚ := sqrtQ (sumSqDiff a b)

theorem euclideanDistance_eq_edist (sqrtQ : ℚ → ℚ) {a b : List ℚ}
    (h : a.length = b.length) :
    euclideanDistance sqrtQ a b = some (edist sqrtQ a b) := by
  simp [euclideanDistance, edist, h]

/-- A cluster (lines 357-361): `size` and `cohesion` are attached after
the Lloyd iterations (lines 413-416) and are 0 before that. -/
structure Cluster where
  id : String
  center : List ℚ
  members : List Nat
  size : Nat
  cohesion : ℚ
deriving Repr, DecidableEq

/-- A vector-index entry `{id, index, embedding}` (built at lines 139-210). -/
structure VEntry where
  id : String
  index : Nat
  embedding : List ℚ
deriving Repr, DecidableEq

/-- Replace the element at a position, leaving the list unchanged when the
position is out of range. -/
def modifyAt {α : Type} (f : α → α) : Nat → List α → List α
  | _, [] => []
  | 0, x :: xs => f x :: xs
  | n + 1, x :: xs => x :: modifyAt f n xs

/-- The `minDist` scan of the k-means++ seeding (lines 331-336):
`minDist = Infinity` then `minDist = min(minDist, dist)` over the centers;
for a nonempty center list this is the minimum of the distances.  (The
center list is never empty: the first center is chosen before the loop.) -/
def minDistToCenters (sqrtQ : ℚ → ℚ) (v : List ℚ) : List (List ℚ) → ℚ
  | [] => 0
  | c :: cs => cs.foldl (fun m cc => min m (edist sqrtQ v cc)) (edist sqrtQ v c)

/-- The per-point distances of one seeding round (lines 328-337):
already-chosen points get 0, the rest their min distance to the chosen
centers.  `idx` is the index of the first element of `vs`. -/
def seedDistances (sqrtQ : ℚ → ℚ) (used : List Nat) (centers : List (List ℚ)) :
    Nat → List (List ℚ) → List ℚ
  | _, [] => []
  | idx, v :: vs =>
    (if idx ∈ used then 0 else minDistToCenters sqrtQ v centers) ::
      seedDistances sqrtQ used centers (idx + 1) vs

/-- The selection loop (lines 341-350): walk the distances subtracting
`d*d` from `random`; the first index `j` with `random ≤ 0` that is not yet
used is chosen; if the loop finishes without breaking, `chosenIdx` keeps
its initial value 0. -/
def chooseNextAux : List ℚ → ℚ → Nat → List Nat → Nat
  | [], _, _, _ => 0
  | d :: rest, random, j, used =>
    if random - d * d ≤ 0 ∧ j ∉ used then j
    else chooseNextAux rest (random - d * d) (j + 1) used

/-- One round of k-means++ seeding (lines 327-354): distances, their
squared sum, `random = r * sumDist`, then the selection scan. -/
def nextCenterIdx (sqrtQ : ℚ → ℚ) (vectors : List (List ℚ)) (used : List Nat)
    (centers : List (List ℚ)) (r : ℚ) : Nat :=
  let dists := seedDistances sqrtQ used centers 0 vectors
  let sumDist := (dists.map fun d => d * d).sum
  chooseNextAux dists (r * sumDist) 0 used

/-- The seeding loop: starting from the first (random) center, pick
`fuel` further centers, pushing each chosen vector (a copy) onto `centers`
and its index into `used`.  (The source's `usedIndices` is a `Set`; the
append-list model has the same membership tests, and the chosen index is
never a duplicate — that is claim C7.) -/
def seedAux (sqrtQ : ℚ → ℚ) (vectors : List (List ℚ)) (rs : Nat → ℚ) :
    Nat → Nat → List (List ℚ) → List Nat → List (List ℚ) × List Nat
  | 0, _, centers, used => (centers, used)
  | fuel + 1, t, centers, used =>
    let j := nextCenterIdx sqrtQ vectors used centers (rs t)
    seedAux sqrtQ vectors rs fuel (t + 1) (centers ++ [vectors.getD j []]) (used ++ [j])

/-- The argmin scan of the assignment step (lines 369-379): `minDist`
starts at `Infinity` (`none`), `nearestCluster` at 0, and both update on a
strictly smaller distance — the result is the first index attaining the
minimum. -/
def argminAux : List ℚ → Nat → Nat → Option ℚ → Nat
  | [], _, best, _ => best
  | d :: rest, j, best, bestD =>
    match bestD with
    | none => argminAux rest (j + 1) j (some d)
    | some b => if d < b then argminAux rest (j + 1) j (some d)
                else argminAux rest (j + 1) best (some b)

def argminIdx (ds : List ℚ) : Nat := argminAux ds 0 0 none

/-- The assignment pass (lines 364-382): clear every cluster's members,
then push each entry's `index` onto the members of its nearest cluster.
Centers do not change during the pass, so folding entry by entry matches
the source's `forEach`. -/
def assignStep (sqrtQ : ℚ → ℚ) (entries : List VEntry) (clusters : List Cluster) :
    List Cluster :=
  entries.foldl
    (fun cs e =>
      modifyAt (fun c => { c with members := c.members ++ [e.index] })
        (argminIdx (cs.map fun c => edist sqrtQ e.embedding c.center)) cs)
    (clusters.map fun c => { c with members := [] })

/-- `vectorIndex.find(v => v.index === memberIdx)` (lines 391, 437). -/
def memberLookup (entries : List VEntry) (idx : Nat) : Option VEntry :=
  entries.find? fun v => v.index == idx

/-- `member.embedding.forEach((val, i) => newCenter[i] += val)` (lines
393-395) in the equal-dimension regime: coordinate-wise addition of a
vector no longer than the accumulator.  (A longer vector would make JS
extend `newCenter`; the regime assumed by the theorems rules that out.) -/
def addVec : List ℚ → List ℚ → List ℚ
  | acc, [] => acc
  | [], _ :: _ => []
  | a :: as, x :: xs => (a + x) :: addVec as xs

/-- Center recomputation for one cluster (lines 386-406): an empty cluster
keeps its center; otherwise the new center is the coordinate-wise sum over
the members found in the vector index, divided by the member count. -/
def updateCenter (entries : List VEntry) (c : Cluster) : Cluster :=
  if c.members.length = 0 then c
  else
    let summed := c.members.foldl
      (fun acc mIdx =>
        match memberLookup entries mIdx with
        | some m => addVec acc m.embedding
        | none => acc)
      (List.replicate c.center.length 0)
    { c with center := summed.map fun x => x / (c.members.length : ℚ) }

/-- The convergence test (lines 399-404): some coordinate of some
non-empty cluster's center moved by more than 0.001. -/
def centerMoved (oldC newC : List ℚ) : Bool :=
  (oldC.zip newC).any fun p => decide (|p.2 - p.1| > 1/1000)

/-- One Lloyd iteration: assign, recompute centers, report whether any
center moved. -/
def lloydStep (sqrtQ : ℚ → ℚ) (entries : List VEntry) (cs : List Cluster) :
    List Cluster × Bool :=
  let assigned := assignStep sqrtQ entries cs
  let updated := assigned.map (updateCenter entries)
  let changed := (assigned.zip updated).any fun p =>
    p.1.members.length != 0 && centerMoved p.1.center p.2.center
  (updated, changed)

/-- The iteration loop (lines 364-410): up to `fuel` (= 20) rounds,
stopping early when no center moved.  The loop breaks *after* the center
update, so the returned clusters carry the members of the last executed
assignment pass. -/
def lloydLoop (sqrtQ : ℚ → ℚ) (entries : List VEntry) :
    Nat → List Cluster → List Cluster
  | 0, cs => cs
  | fuel + 1, cs =>
    let r := lloydStep sqrtQ entries cs
    if r.2 then lloydLoop sqrtQ entries fuel r.1 else r.1

/-- `calculateClusterCohesion` (lines 430-445): 1 for clusters with at
most one member; otherwise `1 / (1 + totalDist / count)` over the members
found in the vector index, and 0 when none is found. -/
def calculateClusterCohesion (sqrtQ : ℚ → ℚ) (entries : List VEntry) (c : Cluster) : ℚ :=
  if c.members.length ≤ 1 then 1
  else
    let found := c.members.filterMap (memberLookup entries)
    let totalDist := (found.map fun m => edist sqrtQ m.embedding c.center).sum
    if found.length > 0 then 1 / (1 + totalDist / found.length) else 0

/-- `performClustering` (lines 311-419): empty input yields no clusters;
otherwise seed `min(k, n)` centers by k-means++ (first one uniform via
`Math.floor(Math.random() * n)`), build the cluster records, run at most
20 Lloyd iterations, and attach `size` and `cohesion`.

The cluster array is `Array(actualK)` long; the seeding always produces
exactly `actualK` centers when `k ≥ 1` (for `k = 0` the source would
index `clusters[0]` of an empty array and crash — every caller in the
repository passes `k ≥ 1`). -/
def performClustering (sqrtQ : ℚ → ℚ) (rs : Nat → ℚ) (vectorIndex : List VEntry)
    (k : Nat) : List Cluster :=
  if vectorIndex.isEmpty then []
  else
    let vectors := vectorIndex.map VEntry.embedding
    let actualK := min k vectors.length
    let firstIdx := Nat.floor (rs 0 * (vectors.length : ℚ))
    let seeded := seedAux sqrtQ vectors rs (actualK - 1) 1
      [vectors.getD firstIdx []] [firstIdx]
    let clusters0 := (List.range actualK).map fun i =>
      { id := "cluster_" ++ toString i, center := seeded.1.getD i []
        members := [], size := 0, cohesion := 0 : Cluster }
    let final := lloydLoop sqrtQ vectorIndex 20 clusters0
    final.map fun c =>
      { c with size := c.members.length
               cohesion := calculateClusterCohesion sqrtQ vectorIndex c }

/-- The list of seed indices chosen by one `performClustering` invocation
(the contents of `usedIndices` in choice order). -/
def seedIndicesOf (sqrtQ : ℚ → ℚ) (rs : Nat → ℚ) (vectorIndex : List VEntry)
    (k : Nat) : List Nat :=
  if vectorIndex.isEmpty then []
  else
    let vectors := vectorIndex.map VEntry.embedding
    let actualK := min k vectors.length
    let firstIdx := Nat.floor (rs 0 * (vectors.length : ℚ))
    (seedAux sqrtQ vectors rs (actualK - 1) 1
      [vectors.getD firstIdx []] [firstIdx]).2

/-! ### The assignment pass is a partition (claim C5) -/

theorem argminAux_cases : ∀ (ds : List ℚ) (j best : Nat) (bd : Option ℚ),
    argminAux ds j best bd = best ∨
      ∃ i, i < ds.length ∧ argminAux ds j best bd = j + i := by
  intro ds
  induction ds with
  | nil => intro j best bd; left; rfl
  | cons d rest ih =>
    intro j best bd
    cases bd with
    | none =>
      rcases ih (j + 1) j (some d) with h | ⟨i, hi, h⟩
      · right
        refine ⟨0, by simp, ?_⟩
        simpa [argminAux] using h
      · right
        refine ⟨i + 1, by simpa using Nat.succ_lt_succ hi, ?_⟩
        rw [show j + (i + 1) = (j + 1) + i by omega]
        simpa [argminAux] using h
    | some b =>
      by_cases hd : d < b
      · rcases ih (j + 1) j (some d) with h | ⟨i, hi, h⟩
        · right
          refine ⟨0, by simp, ?_⟩
          simpa [argminAux, hd] using h
        · right
          refine ⟨i + 1, by simpa using Nat.succ_lt_succ hi, ?_⟩
          rw [show j + (i + 1) = (j + 1) + i by omega]
          simpa [argminAux, hd] using h
      · rcases ih (j + 1) best (some b) with h | ⟨i, hi, h⟩
        · left
          simpa [argminAux, hd] using h
        · right
          refine ⟨i + 1, by simpa using Nat.succ_lt_succ hi, ?_⟩
          rw [show j + (i + 1) = (j + 1) + i by omega]
          simpa [argminAux, hd] using h

theorem argminIdx_lt {ds : List ℚ} (h : ds ≠ []) : argminIdx ds < ds.length := by
  unfold argminIdx
  cases ds with
  | nil => simp at h
  | cons d rest =>
    have heq : argminAux (d :: rest) 0 0 none = argminAux rest 1 0 (some d) := rfl
    rw [heq]
    rcases argminAux_cases rest 1 0 (some d) with h0 | ⟨i, hi, h0⟩ <;> rw [h0] <;> simp <;> omega

theorem modifyAt_length {α : Type} (f : α → α) :
    ∀ (n : Nat) (l : List α), (modifyAt f n l).length = l.length := by
  intro n
  induction n with
  | zero => intro l; cases l <;> rfl
  | succ n ih => intro l; cases l with
    | nil => rfl
    | cons x xs => simpa [modifyAt] using ih xs

theorem modifyAt_push_flatten_perm (v : Nat) :
    ∀ (i : Nat) (cs : List Cluster), i < cs.length →
      ((modifyAt (fun c => { c with members := c.members ++ [v] }) i cs).map
          Cluster.members).flatten.Perm
        (((cs.map Cluster.members).flatten ++ [v])) := by
  intro i
  induction i with
  | zero =>
    intro cs hi
    cases cs with
    | nil => simp at hi
    | cons c rest =>
      simp only [modifyAt, List.map_cons, List.flatten_cons, List.append_assoc]
      exact (List.Perm.append_left c.members (List.perm_append_comm))
  | succ i ih =>
    intro cs hi
    cases cs with
    | nil => simp at hi
    | cons c rest =>
      simp only [modifyAt, List.map_cons, List.flatten_cons, List.append_assoc]
      exact List.Perm.append_left c.members (by simpa using ih rest (by simpa using hi))

/-- The member-push of the assignment loop for one entry. -/
def assignPush (sqrtQ : ℚ → ℚ) (cs : List Cluster) (e : VEntry) : List Cluster :=
  modifyAt (fun c => { c with members := c.members ++ [e.index] })
    (argminIdx (cs.map fun c => edist sqrtQ e.embedding c.center)) cs

theorem assignStep_eq_fold (sqrtQ : ℚ → ℚ) (entries : List VEntry) (clusters : List Cluster) :
    assignStep sqrtQ entries clusters =
      entries.foldl (assignPush sqrtQ) (clusters.map fun c => { c with members := [] }) := rfl

theorem assignPush_length (sqrtQ : ℚ → ℚ) (cs : List Cluster) (e : VEntry) :
    (assignPush sqrtQ cs e).length = cs.length := modifyAt_length _ _ _

theorem assign_fold_length (sqrtQ : ℚ → ℚ) :
    ∀ (entries : List VEntry) (cs : List Cluster),
      (entries.foldl (assignPush sqrtQ) cs).length = cs.length := by
  intro entries
  induction entries with
  | nil => intro cs; rfl
  | cons e rest ih =>
    intro cs
    simpa [List.foldl_cons, assignPush_length] using ih (assignPush sqrtQ cs e)

theorem assign_fold_flatten_perm (sqrtQ : ℚ → ℚ) :
    ∀ (entries : List VEntry) (cs : List Cluster), cs ≠ [] →
      ((entries.foldl (assignPush sqrtQ) cs).map Cluster.members).flatten.Perm
        ((cs.map Cluster.members).flatten ++ entries.map VEntry.index) := by
  intro entries
  induction entries with
  | nil => intro cs _; simp
  | cons e rest ih =>
    intro cs hcs
    have hlen : (assignPush sqrtQ cs e).length = cs.length := assignPush_length sqrtQ cs e
    have hne : assignPush sqrtQ cs e ≠ [] := by
      intro h0
      rw [h0] at hlen
      exact hcs (List.length_eq_zero.1 hlen.symm)
    have hlt : argminIdx (cs.map fun c => edist sqrtQ e.embedding c.center) < cs.length := by
      have hlt0 := argminIdx_lt
        (show (cs.map fun c => edist sqrtQ e.embedding c.center) ≠ [] by simpa using hcs)
      simpa using hlt0
    have hstep : ((assignPush sqrtQ cs e).map Cluster.members).flatten.Perm
        ((cs.map Cluster.members).flatten ++ [e.index]) :=
      modifyAt_push_flatten_perm e.index _ cs hlt
    have hcomb := List.Perm.trans (ih (assignPush sqrtQ cs e) hne)
      (hstep.append_right (rest.map VEntry.index))
    have heq : ((cs.map Cluster.members).flatten ++ [e.index]) ++ rest.map VEntry.index
        = (cs.map Cluster.members).flatten ++ (e :: rest).map VEntry.index := by simp
    rw [heq] at hcomb
    exact hcomb

theorem assignStep_flatten_perm (sqrtQ : ℚ → ℚ) (entries : List VEntry)
    {clusters : List Cluster} (h : clusters ≠ []) :
    ((assignStep sqrtQ entries clusters).map Cluster.members).flatten.Perm
      (entries.map VEntry.index) := by
  rw [assignStep_eq_fold]
  have hne : (clusters.map fun c => { c with members := ([] : List Nat) }) ≠ [] := by
    simpa using h
  have hmain := assign_fold_flatten_perm sqrtQ entries
    (clusters.map fun c => { c with members := ([] : List Nat) }) hne
  have hclear : ∀ l : List Cluster,
      ((l.map fun c => { c with members := ([] : List Nat) }).map Cluster.members).flatten
        = [] := by
    intro l
    induction l with
    | nil => rfl
    | cons c rest ihc => simpa using ihc
  rw [hclear] at hmain
  simpa using hmain

theorem assignStep_length (sqrtQ : ℚ → ℚ) (entries : List VEntry) (clusters : List Cluster) :
    (assignStep sqrtQ entries clusters).length = clusters.length := by
  rw [assignStep_eq_fold]
  rw [assign_fold_length]
  simp

theorem updateCenter_members (entries : List VEntry) (c : Cluster) :
    (updateCenter entries c).members = c.members := by
  unfold updateCenter
  split <;> rfl

theorem lloydStep_members (sqrtQ : ℚ → ℚ) (entries : List VEntry) (cs : List Cluster) :
    ((lloydStep sqrtQ entries cs).1).map Cluster.members =
      (assignStep sqrtQ entries cs).map Cluster.members := by
  unfold lloydStep
  simp only [List.map_map]
  exact List.map_congr_left fun c _ => updateCenter_members entries c

theorem lloydStep_length (sqrtQ : ℚ → ℚ) (entries : List VEntry) (cs : List Cluster) :
    ((lloydStep sqrtQ entries cs).1).length = cs.length := by
  unfold lloydStep
  simp [assignStep_length]

theorem lloydLoop_members (sqrtQ : ℚ → ℚ) (entries : List VEntry) :
    ∀ (fuel : Nat) (cs : List Cluster),
      ∃ cs' : List Cluster, cs'.length = cs.length ∧
        (lloydLoop sqrtQ entries (fuel + 1) cs).map Cluster.members =
          (assignStep sqrtQ entries cs').map Cluster.members ∧
        (lloydLoop sqrtQ entries (fuel + 1) cs).length = cs.length := by
  intro fuel
  induction fuel with
  | zero =>
    intro cs
    refine ⟨cs, rfl, ?_, ?_⟩
    · show (if (lloydStep sqrtQ entries cs).2
          then lloydLoop sqrtQ entries 0 (lloydStep sqrtQ entries cs).1
          else (lloydStep sqrtQ entries cs).1).map Cluster.members = _
      split <;> exact lloydStep_members sqrtQ entries cs
    · show (if (lloydStep sqrtQ entries cs).2
          then lloydLoop sqrtQ entries 0 (lloydStep sqrtQ entries cs).1
          else (lloydStep sqrtQ entries cs).1).length = cs.length
      split <;> exact lloydStep_length sqrtQ entries cs
  | succ fuel ih =>
    intro cs
    show ∃ cs', cs'.length = cs.length ∧
      (if (lloydStep sqrtQ entries cs).2
        then lloydLoop sqrtQ entries (fuel + 1) (lloydStep sqrtQ entries cs).1
        else (lloydStep sqrtQ entries cs).1).map Cluster.members = _ ∧
      (if (lloydStep sqrtQ entries cs).2
        then lloydLoop sqrtQ entries (fuel + 1) (lloydStep sqrtQ entries cs).1
        else (lloydStep sqrtQ entries cs).1).length = cs.length
    by_cases hch : (lloydStep sqrtQ entries cs).2
    · rcases ih (lloydStep sqrtQ entries cs).1 with ⟨cs', hlen, hmem, hlen2⟩
      refine ⟨cs', ?_, ?_, ?_⟩
      · rw [hlen, lloydStep_length]
      · rw [if_pos hch]; exact hmem
      · rw [if_pos hch, hlen2, lloydStep_length]
    · refine ⟨cs, rfl, ?_, ?_⟩
      · rw [if_neg hch]; exact lloydStep_members sqrtQ entries cs
      · rw [if_neg hch]; exact lloydStep_length sqrtQ entries cs

/-- Attaching `size` and `cohesion` leaves the members unchanged. -/
theorem stats_map_members (sqrtQ : ℚ → ℚ) (entries : List VEntry) (l : List Cluster) :
    (l.map fun c =>
        { c with size := c.members.length,
                 cohesion := calculateClusterCohesion sqrtQ entries c }).map Cluster.members =
      l.map Cluster.members := by
  induction l with
  | nil => rfl
  | cons c rest ihc => simpa using ihc

/-- Twenty Lloyd iterations followed by the statistics pass, started from
any nonempty cluster list, produce members that partition the entries. -/
theorem lloyd_stats_flatten_perm (sqrtQ : ℚ → ℚ) (entries : List VEntry)
    {clusters0 : List Cluster} (h : clusters0 ≠ []) :
    (((lloydLoop sqrtQ entries 20 clusters0).map fun c =>
        { c with size := c.members.length,
                 cohesion := calculateClusterCohesion sqrtQ entries c }).map
        Cluster.members).flatten.Perm (entries.map VEntry.index) := by
  rw [stats_map_members]
  rcases lloydLoop_members sqrtQ entries 19 clusters0 with ⟨cs', hlen, hmem, _⟩
  have hcs' : cs' ≠ [] := by
    intro h0
    rw [h0] at hlen
    exact h (List.length_eq_zero.1 hlen.symm)
  rw [show (20 : Nat) = 19 + 1 from rfl, hmem]
  exact assignStep_flatten_perm sqrtQ entries hcs'

/-- The members of the clusters returned by `performClustering`, taken
together, are a permutation of the input entries' `index` fields: each
entry is assigned to exactly one cluster and none is dropped. -/
theorem performClustering_members_perm (sqrtQ : ℚ → ℚ) (rs : Nat → ℚ)
    (entries : List VEntry) (k : Nat) (hne : entries ≠ []) (hk : 1 ≤ k) :
    ((performClustering sqrtQ rs entries k).map Cluster.members).flatten.Perm
      (entries.map VEntry.index) := by
  unfold performClustering
  rw [if_neg (by simpa using hne)]
  have hn : 1 ≤ entries.length := List.length_pos.2 hne
  apply lloyd_stats_flatten_perm
  intro h0
  have hlen0 := congrArg List.length h0
  simp only [List.length_map, List.length_range, List.length_nil] at hlen0
  omega

/-- **C5** — For every non-empty entry list and every requested `k ≥ 1`
(the Engine's callers request `k = 3` or `k ∈ {1, 2}`; `k = 0` would make
the source index into an empty cluster array), the clusters returned by
the Clustering Engine partition the input: the concatenation of all
member lists is a permutation of the input entries' index list, so each
entry's index appears exactly once across the clusters — none assigned
twice, none dropped — and the union of members equals the full index set. -/
theorem performClustering_partitions (sqrtQ : ℚ → ℚ) (rs : Nat → ℚ)
    (entries : List VEntry) (k : Nat) (hne : entries ≠ []) (hk : 1 ≤ k) :
    ((performClustering sqrtQ rs entries k).map Cluster.members).flatten.Perm
      (entries.map VEntry.index) :=
  performClustering_members_perm sqrtQ rs entries k hne hk

/-- Witness for C5 at a concrete two-entry input. -/
theorem performClustering_partitions_witness :
    (([⟨"a", 0, [1]⟩, ⟨"b", 1, [0]⟩] : List VEntry) ≠ [] ∧ 1 ≤ 3) ∧
      ((performClustering (fun x => x) (fun _ => 1/2)
          [⟨"a", 0, [1]⟩, ⟨"b", 1, [0]⟩] 3).map Cluster.members).flatten.Perm
        (([⟨"a", 0, [1]⟩, ⟨"b", 1, [0]⟩] : List VEntry).map VEntry.index) :=
  ⟨⟨by decide, by decide⟩,
    performClustering_partitions (fun x => x) (fun _ => 1/2)
      [⟨"a", 0, [1]⟩, ⟨"b", 1, [0]⟩] 3 (by decide) (by decide)⟩

/-! ### k-means++ seeding never re-selects a chosen point (claim C7) -/

theorem seedDistances_length (sqrtQ : ℚ → ℚ) (used : List Nat) (centers : List (List ℚ)) :
    ∀ (start : Nat) (vs : List (List ℚ)),
      (seedDistances sqrtQ used centers start vs).length = vs.length := by
  intro start vs
  induction vs generalizing start with
  | nil => rfl
  | cons v rest ih => simpa [seedDistances] using ih (start + 1)

theorem seedDistances_used_zero (sqrtQ : ℚ → ℚ) (used : List Nat) (centers : List (List ℚ)) :
    ∀ (vs : List (List ℚ)) (start i : Nat), i < vs.length → (start + i) ∈ used →
      (seedDistances sqrtQ used centers start vs).getD i 0 = 0 := by
  intro vs
  induction vs with
  | nil => intro start i hi _; simp at hi
  | cons v rest ih =>
    intro start i hi hu
    cases i with
    | zero =>
      have hu0 : start ∈ used := by simpa using hu
      simp [seedDistances, hu0]
    | succ i =>
      have hu' : (start + 1) + i ∈ used := by
        rw [show start + 1 + i = start + (i + 1) by omega]
        exact hu
      simpa [seedDistances] using ih (start + 1) i (by simpa using Nat.lt_of_succ_lt_succ hi) hu'

/-- Every index returned by the selection scan through a break is unused;
the fallback is index 0. -/
theorem chooseNextAux_cases : ∀ (ds : List ℚ) (random : ℚ) (j0 : Nat) (used : List Nat),
    chooseNextAux ds random j0 used = 0 ∨
      ∃ i, i < ds.length ∧ chooseNextAux ds random j0 used = j0 + i := by
  intro ds
  induction ds with
  | nil => intro random j0 used; left; rfl
  | cons d rest ih =>
    intro random j0 used
    by_cases hbr : random - d * d ≤ 0 ∧ j0 ∉ used
    · right
      exact ⟨0, by simp, by simp [chooseNextAux, hbr]⟩
    · rw [chooseNextAux, if_neg hbr]
      rcases ih (random - d * d) (j0 + 1) used with h | ⟨i, hi, h⟩
      · left; exact h
      · right
        refine ⟨i + 1, by simpa using Nat.succ_lt_succ hi, ?_⟩
        rw [show j0 + (i + 1) = (j0 + 1) + i by omega]
        exact h

/-- Core of claim C7: whenever the distances of used indices are zero,
some unused index exists, and the initial `random` does not exceed the
total squared mass, the selection scan breaks at an unused index. -/
theorem chooseNextAux_not_used :
    ∀ (ds : List ℚ) (random : ℚ) (j0 : Nat) (used : List Nat),
      (∀ i, i < ds.length → (j0 + i) ∈ used → ds.getD i 0 = 0) →
      (∃ i, i < ds.length ∧ (j0 + i) ∉ used) →
      random - ((ds.map fun d => d * d).sum) ≤ 0 →
      chooseNextAux ds random j0 used ∉ used := by
  intro ds
  induction ds with
  | nil =>
    rintro random j0 used _ ⟨i, hi, _⟩ _
    simp at hi
  | cons d rest ih =>
    intro random j0 used h0 h1 h2
    by_cases hbr : random - d * d ≤ 0 ∧ j0 ∉ used
    · simpa [chooseNextAux, hbr] using hbr.2
    · rw [chooseNextAux, if_neg hbr]
      have h0' : ∀ i, i < rest.length → ((j0 + 1) + i) ∈ used → rest.getD i 0 = 0 := by
        intro i hi hu
        have := h0 (i + 1) (by simpa using Nat.succ_lt_succ hi)
          (by rw [show j0 + (i + 1) = (j0 + 1) + i by omega]; exact hu)
        simpa using this
      have h2' : (random - d * d) - ((rest.map fun d => d * d).sum) ≤ 0 := by
        have hsum : ((d :: rest).map fun d => d * d).sum
            = d * d + (rest.map fun d => d * d).sum := by simp
        rw [hsum] at h2
        linarith
      apply ih (random - d * d) (j0 + 1) used h0' ?_ h2'
      by_cases htail : ∃ i, i < rest.length ∧ ((j0 + 1) + i) ∉ used
      · exact htail
      · exfalso
        push_neg at htail
        have hrest0 : ∀ x ∈ rest.map fun d => d * d, x = 0 := by
          intro x hx
          rcases List.mem_map.1 hx with ⟨y, hy, rfl⟩
          rcases List.mem_iff_getElem.1 hy with ⟨i, hi, rfl⟩
          have hz := h0' i hi (htail i hi)
          rw [List.getD_eq_getElem rest 0 hi] at hz
          rw [hz]
          ring
        have hsum0 : ((rest.map fun d => d * d).sum) = 0 := List.sum_eq_zero hrest0
        have hstop : random - d * d ≤ 0 := by linarith [h2']
        rcases h1 with ⟨i, hi, hnu⟩
        cases i with
        | zero => exact hbr ⟨hstop, by simpa using hnu⟩
        | succ i =>
          apply hnu
          have := htail i (by simpa using Nat.lt_of_succ_lt_succ hi)
          rw [show j0 + (i + 1) = (j0 + 1) + i by omega]
          exact this

theorem nextCenterIdx_not_used (sqrtQ : ℚ → ℚ) (vectors : List (List ℚ))
    (used : List Nat) (centers : List (List ℚ)) (r : ℚ)
    (hex : ∃ i, i < vectors.length ∧ i ∉ used) (hr1 : r ≤ 1) :
    nextCenterIdx sqrtQ vectors used centers r ∉ used := by
  unfold nextCenterIdx
  apply chooseNextAux_not_used
  · intro i hi hu
    rw [seedDistances_length] at hi
    exact seedDistances_used_zero sqrtQ used centers vectors 0 i hi (by simpa using hu)
  · rcases hex with ⟨i, hi, hnu⟩
    exact ⟨i, by rw [seedDistances_length]; exact hi, by simpa using hnu⟩
  · have hS : 0 ≤ ((seedDistances sqrtQ used centers 0 vectors).map fun d => d * d).sum := by
      apply List.sum_nonneg
      intro x hx
      rcases List.mem_map.1 hx with ⟨y, _, rfl⟩
      exact mul_self_nonneg y
    nlinarith [mul_nonneg (sub_nonneg.2 hr1) hS]

theorem nextCenterIdx_lt (sqrtQ : ℚ → ℚ) (vectors : List (List ℚ))
    (used : List Nat) (centers : List (List ℚ)) (r : ℚ) (hn : 1 ≤ vectors.length) :
    nextCenterIdx sqrtQ vectors used centers r < vectors.length := by
  unfold nextCenterIdx
  rcases chooseNextAux_cases (seedDistances sqrtQ used centers 0 vectors) _ 0 used with h | ⟨i, hi, h⟩
  · rw [h]; omega
  · rw [h, seedDistances_length] at *
    simpa using hi

theorem seedAux_invariant (sqrtQ : ℚ → ℚ) (vectors : List (List ℚ)) (rs : Nat → ℚ)
    (hr : ∀ i, 0 ≤ rs i ∧ rs i < 1) :
    ∀ (fuel t : Nat) (centers : List (List ℚ)) (used : List Nat),
      used.Nodup → (∀ u ∈ used, u < vectors.length) →
      used.length + fuel ≤ vectors.length →
      ((seedAux sqrtQ vectors rs fuel t centers used).2.Nodup ∧
        (seedAux sqrtQ vectors rs fuel t centers used).2.length = used.length + fuel ∧
        ∀ u ∈ (seedAux sqrtQ vectors rs fuel t centers used).2, u < vectors.length) := by
  intro fuel
  induction fuel with
  | zero =>
    intro t centers used hd hb hl
    exact ⟨hd, by simp [seedAux], hb⟩
  | succ fuel ih =>
    intro t centers used hd hb hl
    have hexists : ∃ i, i < vectors.length ∧ i ∉ used := by
      by_contra hno
      push_neg at hno
      have hsub : Finset.range vectors.length ⊆ used.toFinset := by
        intro i hi
        simpa using hno i (Finset.mem_range.1 hi)
      have hcard := Finset.card_le_card hsub
      rw [Finset.card_range] at hcard
      have hfin := List.toFinset_card_le used
      omega
    have hj1 : nextCenterIdx sqrtQ vectors used centers (rs t) ∉ used :=
      nextCenterIdx_not_used sqrtQ vectors used centers (rs t) hexists (le_of_lt (hr t).2)
    have hj2 : nextCenterIdx sqrtQ vectors used centers (rs t) < vectors.length :=
      nextCenterIdx_lt sqrtQ vectors used centers (rs t) (by omega)
    have hd' : (used ++ [nextCenterIdx sqrtQ vectors used centers (rs t)]).Nodup := by
      simp [List.nodup_append, hd, hj1]
    have hb' : ∀ u ∈ used ++ [nextCenterIdx sqrtQ vectors used centers (rs t)],
        u < vectors.length := by
      intro u hu
      rcases List.mem_append.1 hu with hu | hu
      · exact hb u hu
      · simpa using List.mem_singleton.1 hu ▸ hj2
    have hl' : (used ++ [nextCenterIdx sqrtQ vectors used centers (rs t)]).length + fuel
        ≤ vectors.length := by
      simp only [List.length_append, List.length_singleton]
      omega
    have hres := ih (t + 1) (centers ++ [vectors.getD
        (nextCenterIdx sqrtQ vectors used centers (rs t)) []])
      (used ++ [nextCenterIdx sqrtQ vectors used centers (rs t)]) hd' hb' hl'
    have hstep : seedAux sqrtQ vectors rs (fuel + 1) t centers used
        = seedAux sqrtQ vectors rs fuel (t + 1)
            (centers ++ [vectors.getD (nextCenterIdx sqrtQ vectors used centers (rs t)) []])
            (used ++ [nextCenterIdx sqrtQ vectors used centers (rs t)]) := rfl
    rw [hstep]
    refine ⟨hres.1, ?_, hres.2.2⟩
    rw [hres.2.1]
    simp only [List.length_append, List.length_singleton]
    omega

/-- **C7** — For every non-empty entry list, every requested `k ≥ 1`, and
every stream of `Math.random()` draws in `[0, 1)`, the k-means++ seeding
step never selects an already-chosen point (already-chosen points carry
zero squared-distance mass, so the subtractive scan always breaks at an
unused index): the `min(k, |entries|)` chosen seed indices are pairwise
distinct, and all lie within the entry range.  The uniform-dimension
hypothesis confines the statement to the regime where the `ℚ`-valued
distance model agrees with the source (the spec fixes dimension 384). -/
theorem seedIndicesOf_distinct (sqrtQ : ℚ → ℚ) (rs : Nat → ℚ)
    (entries : List VEntry) (k d : Nat) (hne : entries ≠ []) (hk : 1 ≤ k)
    (hr : ∀ i, 0 ≤ rs i ∧ rs i < 1)
    (hdim : ∀ e ∈ entries, e.embedding.length = d) :
    (seedIndicesOf sqrtQ rs entries k).Nodup ∧
      (seedIndicesOf sqrtQ rs entries k).length = min k entries.length ∧
      ∀ j ∈ seedIndicesOf sqrtQ rs entries k, j < entries.length := by
  unfold seedIndicesOf
  rw [if_neg (by simpa using hne)]
  have hn : 1 ≤ entries.length := List.length_pos.2 hne
  have hfirst : Nat.floor (rs 0 * ((entries.map VEntry.embedding).length : ℚ))
      < (entries.map VEntry.embedding).length := by
    rw [List.length_map]
    have h0 : (0 : ℚ) ≤ rs 0 * (entries.length : ℚ) :=
      mul_nonneg (hr 0).1 (by positivity)
    refine (Nat.floor_lt h0).2 ?_
    have hlt : rs 0 * (entries.length : ℚ) < 1 * (entries.length : ℚ) := by
      apply mul_lt_mul_of_pos_right (hr 0).2
      exact_mod_cast hn
    simpa using hlt
  have hinv := seedAux_invariant sqrtQ (entries.map VEntry.embedding) rs hr
    (min k (entries.map VEntry.embedding).length - 1) 1
    [(entries.map VEntry.embedding).getD
      (Nat.floor (rs 0 * ((entries.map VEntry.embedding).length : ℚ))) []]
    [Nat.floor (rs 0 * ((entries.map VEntry.embedding).length : ℚ))]
    (List.nodup_singleton _)
    (by
      intro u hu
      rw [List.mem_singleton.1 hu]
      exact hfirst)
    (by
      simp only [List.length_singleton, List.length_map]
      omega)
  refine ⟨hinv.1, ?_, ?_⟩
  · rw [hinv.2.1]
    simp only [List.length_singleton, List.length_map]
    omega
  · intro j hj
    have := hinv.2.2 j hj
    simpa using this

/-- Witness for C7 at a concrete two-entry input. -/
theorem seedIndicesOf_distinct_witness :
    (([⟨"a", 0, [1]⟩, ⟨"b", 1, [0]⟩] : List VEntry) ≠ [] ∧ 1 ≤ 2 ∧
        (∀ i : Nat, 0 ≤ (fun _ : Nat => (1 : ℚ)/2) i ∧ (fun _ : Nat => (1 : ℚ)/2) i < 1) ∧
        (∀ e ∈ ([⟨"a", 0, [1]⟩, ⟨"b", 1, [0]⟩] : List VEntry), e.embedding.length = 1)) ∧
      (seedIndicesOf (fun x => x) (fun _ => 1/2) [⟨"a", 0, [1]⟩, ⟨"b", 1, [0]⟩] 2).Nodup :=
  ⟨⟨by decide, by decide, fun i => by norm_num, by decide⟩,
    (seedIndicesOf_distinct (fun x => x) (fun _ => 1/2)
      [⟨"a", 0, [1]⟩, ⟨"b", 1, [0]⟩] 2 1 (by decide) (by decide)
      (fun i => by norm_num) (by decide)).1⟩

/-! ### Cohesion (claim C6) -/

theorem filterMap_length_of_isSome {α β : Type} (f : α → Option β) :
    ∀ (l : List α), (∀ x ∈ l, (f x).isSome) → (l.filterMap f).length = l.length := by
  intro l
  induction l with
  | nil => intro _; rfl
  | cons x xs ih =>
    intro h
    rcases Option.isSome_iff_exists.1 (h x (by simp)) with ⟨y, hy⟩
    simp [List.filterMap_cons, hy, ih fun z hz => h z (by simp [hz])]

theorem sumSqDiff_nonneg (a b : List ℚ) : 0 ≤ sumSqDiff a b := by
  apply List.sum_nonneg
  intro x hx
  rcases List.mem_map.1 hx with ⟨p, _, rfl⟩
  positivity

theorem edist_nonneg {sqrtQ : ℚ → ℚ} (hsq : ∀ q, 0 ≤ q → 0 ≤ sqrtQ q) (a b : List ℚ) :
    0 ≤ edist sqrtQ a b :=
  hsq _ (sumSqDiff_nonneg a b)

/-- `calculateClusterCohesion` on a cluster all of whose members resolve
in the vector index: 1 for at most one member, the `1/(1 + mean)` formula
for two or more, and in all cases strictly positive and at most 1. -/
theorem calculateClusterCohesion_spec (sqrtQ : ℚ → ℚ) (entries : List VEntry) (c : Cluster)
    (hsq : ∀ q, 0 ≤ q → 0 ≤ sqrtQ q)
    (hmem : ∀ m ∈ c.members, (memberLookup entries m).isSome) :
    (c.members.length ≤ 1 → calculateClusterCohesion sqrtQ entries c = 1) ∧
      (2 ≤ c.members.length → calculateClusterCohesion sqrtQ entries c =
        1 / (1 + ((c.members.filterMap (memberLookup entries)).map
          fun m => edist sqrtQ m.embedding c.center).sum / (c.members.length : ℚ))) ∧
      0 < calculateClusterCohesion sqrtQ entries c ∧
      calculateClusterCohesion sqrtQ entries c ≤ 1 := by
  have hflen : (c.members.filterMap (memberLookup entries)).length = c.members.length :=
    filterMap_length_of_isSome _ _ hmem
  by_cases hle : c.members.length ≤ 1
  · refine ⟨fun _ => by simp [calculateClusterCohesion, hle],
      fun h2 => by omega,
      by simp [calculateClusterCohesion, hle],
      by simp [calculateClusterCohesion, hle]⟩
  · have h2 : 2 ≤ c.members.length := by omega
    have hcount : 0 < (c.members.filterMap (memberLookup entries)).length := by omega
    have htotal : 0 ≤ ((c.members.filterMap (memberLookup entries)).map
        fun m => edist sqrtQ m.embedding c.center).sum := by
      apply List.sum_nonneg
      intro x hx
      rcases List.mem_map.1 hx with ⟨m, _, rfl⟩
      exact edist_nonneg hsq _ _
    have hval : calculateClusterCohesion sqrtQ entries c =
        1 / (1 + ((c.members.filterMap (memberLookup entries)).map
          fun m => edist sqrtQ m.embedding c.center).sum / (c.members.length : ℚ)) := by
      simp only [calculateClusterCohesion, if_neg hle]
      rw [if_pos hcount, hflen]
    have hmean : 0 ≤ ((c.members.filterMap (memberLookup entries)).map
        fun m => edist sqrtQ m.embedding c.center).sum / (c.members.length : ℚ) := by
      apply div_nonneg htotal
      positivity
    refine ⟨fun h1 => by omega, fun _ => hval, ?_, ?_⟩
    · rw [hval]
      apply div_pos one_pos
      linarith
    · rw [hval]
      rw [div_le_one (by linarith)]
      linarith

/-- Every member index of every returned cluster resolves to an entry of
the vector index (a consequence of the partition property). -/
theorem performClustering_members_resolve (sqrtQ : ℚ → ℚ) (rs : Nat → ℚ)
    (entries : List VEntry) (k : Nat) (hne : entries ≠ []) (hk : 1 ≤ k) :
    ∀ c ∈ performClustering sqrtQ rs entries k, ∀ m ∈ c.members,
      (memberLookup entries m).isSome := by
  intro c hc m hm
  have hflat : m ∈ ((performClustering sqrtQ rs entries k).map Cluster.members).flatten :=
    List.mem_flatten.2 ⟨c.members, List.mem_map_of_mem _ hc, hm⟩
  have hperm := performClustering_members_perm sqrtQ rs entries k hne hk
  have hidx : m ∈ entries.map VEntry.index := hperm.mem_iff.1 hflat
  rcases List.mem_map.1 hidx with ⟨e, he, rfl⟩
  rw [memberLookup, List.find?_isSome]
  exact ⟨e, he, by simp⟩

/-- The `cohesion` and `size` fields of every returned cluster are the
statistics computed from its own members and center. -/
theorem performClustering_stats_eq (sqrtQ : ℚ → ℚ) (rs : Nat → ℚ)
    (entries : List VEntry) (k : Nat) :
    ∀ c ∈ performClustering sqrtQ rs entries k,
      c.cohesion = calculateClusterCohesion sqrtQ entries c ∧
        c.size = c.members.length := by
  intro c hc
  unfold performClustering at hc
  split at hc
  · simp at hc
  · rcases List.mem_map.1 hc with ⟨c0, _, rfl⟩
    exact ⟨rfl, rfl⟩

/-- **C6** — For every cluster returned by the Clustering Engine (on a
non-empty entry list, requested `k ≥ 1`, a square root that is
nonnegative on nonnegative inputs, and embeddings of one common
dimension, the regime in which the `ℚ`-valued model is faithful):
cohesion equals `1 / (1 + mean Euclidean distance of its members to its
center)` whenever the cluster has at least two members, singleton and
empty clusters have cohesion exactly 1, and every cluster's cohesion
satisfies `0 < cohesion ≤ 1`. -/
theorem performClustering_cohesion_bounds (sqrtQ : ℚ → ℚ) (rs : Nat → ℚ)
    (entries : List VEntry) (k d : Nat) (hne : entries ≠ []) (hk : 1 ≤ k)
    (hsq : ∀ q, 0 ≤ q → 0 ≤ sqrtQ q)
    (hdim : ∀ e ∈ entries, e.embedding.length = d) :
    ∀ c ∈ performClustering sqrtQ rs entries k,
      (c.members.length ≤ 1 → c.cohesion = 1) ∧
        (2 ≤ c.members.length → c.cohesion =
          1 / (1 + ((c.members.filterMap (memberLookup entries)).map
            fun m => edist sqrtQ m.embedding c.center).sum / (c.members.length : ℚ))) ∧
        0 < c.cohesion ∧ c.cohesion ≤ 1 := by
  intro c hc
  have heq := (performClustering_stats_eq sqrtQ rs entries k c hc).1
  have hresolve := performClustering_members_resolve sqrtQ rs entries k hne hk c hc
  have hspec := calculateClusterCohesion_spec sqrtQ entries c hsq hresolve
  rw [heq]
  exact hspec

/-- Witness for C6 at a concrete two-entry input, with `sqrtQ` the
identity (which is nonnegative on nonnegative inputs). -/
theorem performClustering_cohesion_bounds_witness :
    (([⟨"a", 0, [1]⟩, ⟨"b", 1, [0]⟩] : List VEntry) ≠ [] ∧ 1 ≤ 2 ∧
        (∀ q : ℚ, 0 ≤ q → 0 ≤ (fun x : ℚ => x) q) ∧
        (∀ e ∈ ([⟨"a", 0, [1]⟩, ⟨"b", 1, [0]⟩] : List VEntry), e.embedding.length = 1)) ∧
      ∀ c ∈ performClustering (fun x => x) (fun _ => 1/2) [⟨"a", 0, [1]⟩, ⟨"b", 1, [0]⟩] 2,
        0 < c.cohesion ∧ c.cohesion ≤ 1 :=
  ⟨⟨by decide, by decide, fun q h => h, by decide⟩,
    fun c hc =>
      (performClustering_cohesion_bounds (fun x => x) (fun _ => 1/2)
        [⟨"a", 0, [1]⟩, ⟨"b", 1, [0]⟩] 2 1 (by decide) (by decide)
        (fun q h => h) (by decide) c hc).2.2⟩

/-! ## Vector Index Builder (`process-data.js` lines 138-210) -/

structure VectorIndices where
  summary : List VEntry
  themes : List VEntry
  collegeExperience : List VEntry
  quotes : List VEntry
  tags : List (String × List VEntry)
deriving Repr, DecidableEq

/-- The tag universe: every tag of every quote of every interview, first
occurrence first (lines 149-154, a `Set` filled by nested `forEach`). -/
def allTagsOf (interviews : List Interview) : List String :=
  setDedup (interviews.flatMap fun iv => iv.analysis.quotes.flatMap Quote.tags)

/-- One of the four category index lists (lines 158-192): an entry per
interview whose chosen category aggregate exists and is non-empty
(`interview.categoryEmbeddings?.summary?.length > 0` &c.). -/
def catEntries (f : CategoryEmbeddings → List ℚ) (idxed : List (Nat × Interview)) :
    List VEntry :=
  idxed.filterMap fun p =>
    match p.2.categoryEmbeddings with
    | some cemb =>
      if (f cemb).length > 0 then some ⟨p.2.interviewId, p.1, f cemb⟩ else none
    | none => none

/-- `indices.tags[tag].push(...)` with lazy key creation (lines 195-206):
append to the key's list when it exists, otherwise create the key at the
end — JS object key order is insertion order. -/
def addTagEntry (m : List (String × List VEntry)) (k : String) (v : VEntry) :
    List (String × List VEntry) :=
  if (m.lookup k).isSome then
    m.map fun p => if p.1 = k then (p.1, p.2 ++ [v]) else p
  else m ++ [(k, [v])]

/-- `buildVectorIndices` (lines 139-210).  The per-interview tag loop
iterates `allTags` in universe order; an interview contributes to a tag's
list iff its `tagEmbeddings` holds that key (`?.[tag]` — a present array
is truthy even when empty). -/
def buildVectorIndices (interviews : List Interview) : VectorIndices :=
  let idxed := interviews.enum
  { summary := catEntries (fun c => c.summary) idxed
    themes := catEntries (fun c => c.themes) idxed
    collegeExperience := catEntries (fun c => c.collegeExperience) idxed
    quotes := catEntries (fun c => c.quotes) idxed
    tags := idxed.foldl
      (fun acc p =>
        (allTagsOf interviews).foldl
          (fun acc2 tag =>
            match p.2.tagEmbeddings.lookup tag with
            | some emb => addTagEntry acc2 tag ⟨p.2.interviewId, p.1, emb⟩
            | none => acc2)
          acc)
      [] }

/-! ## Pipeline Driver (`process-data.js` lines 36-48 and 447-550)

`processInterview` reads and `JSON.parse`s the file *before* the
`try { ... }` that guards the embedding phase (lines 40-41 vs 51): a file
whose content is not valid JSON makes the async function reject rather
than return a `{ success: false }` record.  `main` runs
`Promise.all(jsonFiles.map(processInterview))` (line 463), so one such
rejection rejects the whole batch; the rejection lands in the top-level
`main().catch(console.error)` (line 550), after which the process ends
with exit code 0 — no artifact file is ever written.  The `Except` monad
models exactly this propagation.

`processedAt` (wall clock) and `deploymentId` (environment) are external
inputs not consulted by any verified property and are omitted from the
manifest model. -/

/-- What a batch input file parses to. -/
inductive FileContent where
  | malformed
  | wellFormed (data : Interview)
deriving Repr, DecidableEq

/-- The resolved value of one `processInterview` call:
`{ success: true, data }` or `{ success: false, ... }` (schema-validation
failure at lines 44-48, or an embedding error caught at lines 132-135). -/
inductive ProcOutcome where
  | ok (data : Interview)
  | failed
deriving Repr, DecidableEq

def ProcOutcome.isSuccess : ProcOutcome → Bool
  | .ok _ => true
  | .failed => false

def ProcOutcome.getData : ProcOutcome → Option Interview
  | .ok d => some d
  | .failed => none

/-- `processInterview` (lines 37-136).  A malformed file throws in
`JSON.parse` outside the `try`, rejecting the promise; a well-formed file
is validated (abstract `validate` models the Ajv schema check) and, when
valid, enriched.  The embedding model is a total Lean function, so the
caught `EmbeddingFailure` branch (lines 132-135) never fires in the
model. -/
def processInterview (validate : Interview → Bool) (embed : String → List ℚ) :
    FileContent → Except String ProcOutcome
  | .malformed => .error "SyntaxError: Unexpected token"
  | .wellFormed d =>
    if validate d then .ok (.ok (enrichInterview embed d)) else .ok .failed

/-- `metadata.json` (lines 533-545), minus the wall-clock and environment
fields. -/
structure ManifestData where
  totalInterviews : Nat
  failedFiles : Nat
  clusterTypes : List String
  searchDocuments : Nat
  embeddingDimension : Nat
  tags : List String
deriving Repr, DecidableEq

structure ClusteringResults where
  summary : List Cluster
  themes : List Cluster
  collegeExperience : List Cluster
  quotes : List Cluster
  tags : List (String × List Cluster)
deriving Repr, DecidableEq

/-- Everything `main` writes when it completes: the five output artifacts
(the Lunr serialization aside). -/
structure RunArtifacts where
  interviews : List Interview
  vectorIndices : VectorIndices
  clusters : ClusteringResults
  searchDocuments : List SearchDoc
  searchEmbeddings : List EmbEntry
  manifest : ManifestData
deriving Repr, DecidableEq

/-- `main` (lines 448-548).  `Math.random()` is one global stream; each
clustering call consumes a prefix of the remaining draws, modelled by
giving every call its own stream (`rsS` … `rsTag`): any interleaving of
the global stream corresponds to some choice of these.  The `.ok` result
is the set of files written; `.error` means the batch aborted with
nothing written. -/
def mainRun (validate : Interview → Bool) (embed : String → List ℚ) (sqrtQ : ℚ → ℚ)
    (rsS rsT rsC rsQ : Nat → ℚ) (rsTag : String → Nat → ℚ)
    (files : List FileContent) : Except String RunArtifacts := do
  let results ← files.mapM (processInterview validate embed)
  let failed := results.filter fun r => !r.isSuccess
  let interviews := results.filterMap ProcOutcome.getData
  let vectorIndices := buildVectorIndices interviews
  let clusteringResults : ClusteringResults :=
    { summary := performClustering sqrtQ rsS vectorIndices.summary 3
      themes := performClustering sqrtQ rsT vectorIndices.themes 3
      collegeExperience := performClustering sqrtQ rsC vectorIndices.collegeExperience 3
      quotes := performClustering sqrtQ rsQ vectorIndices.quotes 3
      tags := vectorIndices.tags.filterMap fun p =>
        if 2 ≤ p.2.length then
          some (p.1, performClustering sqrtQ (rsTag p.1) p.2 (min 2 ((p.2.length + 1) / 2)))
        else none }
  let searchData := buildSearchIndex interviews
  pure
    { interviews := interviews
      vectorIndices := vectorIndices
      clusters := clusteringResults
      searchDocuments := searchData.1
      searchEmbeddings := searchData.2
      manifest :=
        { totalInterviews := interviews.length
          failedFiles := failed.length
          clusterTypes := ["summary", "themes", "collegeExperience", "quotes", "tags"]
          searchDocuments := searchData.1.length
          embeddingDimension := 384
          tags := vectorIndices.tags.map Prod.fst } }

/-- The exit status of `node scripts/process-data.js`: the script never
calls `process.exit`, and `main().catch(console.error)` (line 550)
swallows any rejection, so the Node process exits 0 whether `main`
resolved or rejected. -/
def scriptExitCode (validate : Interview → Bool) (embed : String → List ℚ) (sqrtQ : ℚ → ℚ)
    (rsS rsT rsC rsQ : Nat → ℚ) (rsTag : String → Nat → ℚ)
    (files : List FileContent) : Nat :=
  match mainRun validate embed sqrtQ rsS rsT rsC rsQ rsTag files with
  | .ok _ => 0
  | .error _ => 0

/-! ### Per-file failure containment (claims C1, C2) -/

/-- **C1** — A batch of 3 files whose second is malformed JSON: the whole
run rejects (no manifest, no artifacts), because `JSON.parse` sits outside
`processInterview`'s try/catch and `Promise.all` propagates the first
rejection.  The claimed outcome — a manifest with `totalInterviews: 2,
failedFiles: 1` and artifacts for the 2 valid records — never happens. -/
theorem mainRun_aborts_on_malformed_json :
    mainRun (fun _ => true) (fun _ => [1]) (fun x => x)
      (fun _ => 0) (fun _ => 0) (fun _ => 0) (fun _ => 0) (fun _ _ => 0)
      [.wellFormed emptyRawInterview, .malformed,
        .wellFormed { emptyRawInterview with interviewId := "i2" }]
      = .error "SyntaxError: Unexpected token" := rfl

/-- The pure outcome of one file in a batch with no malformed JSON. -/
def outcomeOf (validate : Interview → Bool) (embed : String → List ℚ) :
    FileContent → ProcOutcome
  | .malformed => .failed
  | .wellFormed d => if validate d then .ok (enrichInterview embed d) else .failed

theorem mapM_processInterview_ok (validate : Interview → Bool) (embed : String → List ℚ) :
    ∀ files : List FileContent, FileContent.malformed ∉ files →
      files.mapM (processInterview validate embed)
        = .ok (files.map (outcomeOf validate embed)) := by
  intro files
  induction files with
  | nil => intro _; rfl
  | cons f rest ih =>
    intro h
    have hrest := ih fun hm => h (List.mem_cons_of_mem f hm)
    cases f with
    | malformed => exact absurd (List.mem_cons_self _ _) h
    | wellFormed d =>
      have hpd : processInterview validate embed (.wellFormed d)
          = .ok (if validate d then ProcOutcome.ok (enrichInterview embed d)
                 else ProcOutcome.failed) := by
        by_cases hv : validate d <;> simp [processInterview, hv]
      rw [List.mapM_cons, hpd, hrest]
      rfl

/-- Whether a file counts as failed in the caught-failure regime. -/
def fileFails (validate : Interview → Bool) : FileContent → Bool
  | .malformed => true
  | .wellFormed d => !(validate d)

theorem outcome_counts (validate : Interview → Bool) (embed : String → List ℚ) :
    ∀ files : List FileContent,
      ((files.map (outcomeOf validate embed)).filter fun r => !r.isSuccess).length
          = (files.filter (fileFails validate)).length ∧
        ((files.map (outcomeOf validate embed)).filterMap ProcOutcome.getData).length
          = (files.filter fun f => !(fileFails validate f)).length := by
  intro files
  induction files with
  | nil => exact ⟨rfl, rfl⟩
  | cons f rest ih =>
    cases f with
    | malformed =>
      simpa [outcomeOf, fileFails, ProcOutcome.isSuccess, ProcOutcome.getData,
        List.filter_cons] using ih
    | wellFormed d =>
      by_cases hv : validate d <;>
        simpa [outcomeOf, fileFails, ProcOutcome.isSuccess, ProcOutcome.getData,
          List.filter_cons, hv] using ih

/-- **C2** — Whenever every file at least parses (the uncaught
malformed-JSON rejection of C1 aside), the driver completes the batch and
produces the whole artifact bundle — enriched interviews, vector indices,
clusters, search index, manifest — with `failedFiles` counting the
validation failures and `totalInterviews` the successes; but the process
exit status is 0, not the claimed non-zero: the script never calls
`process.exit` and its top-level `catch` swallows everything, so even a
batch with failures exits 0 (and so does a fully aborted batch). -/
theorem mainRun_completes_but_exits_zero (validate : Interview → Bool)
    (embed : String → List ℚ) (sqrtQ : ℚ → ℚ) (rsS rsT rsC rsQ : Nat → ℚ)
    (rsTag : String → Nat → ℚ) (files : List FileContent)
    (hok : FileContent.malformed ∉ files) :
    (∃ a : RunArtifacts,
        mainRun validate embed sqrtQ rsS rsT rsC rsQ rsTag files = .ok a ∧
          a.manifest.failedFiles = (files.filter (fileFails validate)).length ∧
          a.manifest.totalInterviews
            = (files.filter fun f => !(fileFails validate f)).length) ∧
      scriptExitCode validate embed sqrtQ rsS rsT rsC rsQ rsTag files = 0 := by
  constructor
  · have hmm := mapM_processInterview_ok validate embed files hok
    unfold mainRun
    rw [hmm]
    refine ⟨_, rfl, ?_, ?_⟩
    · exact (outcome_counts validate embed files).1
    · exact (outcome_counts validate embed files).2
  · unfold scriptExitCode
    split <;> rfl

/-- Witness for C2: a concrete 2-file batch whose second file fails
schema validation; the run completes with `failedFiles = 1`,
`totalInterviews = 1`, and exit status 0. -/
theorem mainRun_completes_but_exits_zero_witness :
    (FileContent.malformed ∉
        ([.wellFormed emptyRawInterview,
          .wellFormed { emptyRawInterview with interviewId := "bad" }] : List FileContent)) ∧
      (∃ a : RunArtifacts,
          mainRun (fun r => !(r.interviewId == "bad")) (fun _ => [1]) (fun x => x)
            (fun _ => 0) (fun _ => 0) (fun _ => 0) (fun _ => 0) (fun _ _ => 0)
            [.wellFormed emptyRawInterview,
              .wellFormed { emptyRawInterview with interviewId := "bad" }] = .ok a ∧
            a.manifest.failedFiles = 1 ∧ a.manifest.totalInterviews = 1) ∧
      scriptExitCode (fun r => !(r.interviewId == "bad")) (fun _ => [1]) (fun x => x)
        (fun _ => 0) (fun _ => 0) (fun _ => 0) (fun _ => 0) (fun _ _ => 0)
        [.wellFormed emptyRawInterview,
          .wellFormed { emptyRawInterview with interviewId := "bad" }] = 0 := by
  refine ⟨by decide, ?_⟩
  have h := mainRun_completes_but_exits_zero (fun r => !(r.interviewId == "bad"))
    (fun _ => [1]) (fun x => x) (fun _ => 0) (fun _ => 0) (fun _ => 0) (fun _ => 0)
    (fun _ _ => 0)
    [.wellFormed emptyRawInterview,
      .wellFormed { emptyRawInterview with interviewId := "bad" }]
    (by decide)
  rcases h with ⟨⟨a, ha, hfail, htot⟩, hexit⟩
  refine ⟨⟨a, ha, ?_, ?_⟩, hexit⟩
  · rw [hfail]; decide
  · rw [htot]; decide

/-! ## Embedding Provider initialization under concurrency (claim C9)

`getEmbedder` (lines 20-25) is

```
if (!embedder) { embedder = await pipeline(...) }
return embedder
```

The global is assigned only *after* the `await` resolves.  JS interleaves
tasks at `await` points, so the state machine below has, per caller, three
program points: about to test `embedder`; suspended inside the `await`
(the `pipeline()` load already started); done.  `loads` counts
`pipeline()` invocations. -/

inductive TaskPc where
  | start
  | loading
  | done
deriving Repr, DecidableEq

structure EmbedderState where
  embedder : Bool
  loads : Nat
  pcs : List TaskPc
deriving Repr, DecidableEq

/-- Run task `i` from its current program point to its next suspension or
return. -/
def stepTask (s : EmbedderState) (i : Nat) : EmbedderState :=
  match s.pcs.getD i .done with
  | .start =>
    if s.embedder then { s with pcs := modifyAt (fun _ => .done) i s.pcs }
    else { s with loads := s.loads + 1, pcs := modifyAt (fun _ => .loading) i s.pcs }
  | .loading => { s with embedder := true, pcs := modifyAt (fun _ => .done) i s.pcs }
  | .done => s

/-- Execute a schedule (a sequence of task choices) over `k` fresh
callers of `getEmbedder`. -/
def runSchedule (k : Nat) (sched : List Nat) : EmbedderState :=
  sched.foldl stepTask { embedder := false, loads := 0, pcs := List.replicate k .start }

/-- **C9** — The memoization is not initialization-safe: with two
concurrent first callers, the interleaving in which both test `embedder`
before either load resolves makes *each* trigger its own `pipeline()`
load (`loads = 2`, both callers complete), whereas the serialized
schedule loads once.  The claim that concurrent first calls cannot
trigger a separate load is violated by the check-then-assign-after-await
shape of `getEmbedder`. -/
theorem getEmbedder_double_load :
    (runSchedule 2 [0, 1, 0, 1]).loads = 2 ∧
      (∀ pc ∈ (runSchedule 2 [0, 1, 0, 1]).pcs, pc = TaskPc.done) ∧
      (runSchedule 2 [0, 0, 1, 1]).loads = 1 ∧
      (∀ pc ∈ (runSchedule 2 [0, 0, 1, 1]).pcs, pc = TaskPc.done) := by
  decide

end SESAP
